import Mathlib

/-!
Shallow embedding of the `biorbd_optim` transcription engine
(`src/biorbd_optim/constraints.py` and
`src/biorbd_optim/optimal_control_program.py`).

Symbolic CasADi `MX` scalars are modelled by the inductive `MXs`; a CasADi
column vector is a `List MXs` (one entry per row).  The global constraint
vector `ocp.g` and its bound vectors `ocp.g_bounds.min` / `ocp.g_bounds.max`
are modelled by `OcpState`.  Python exceptions are modelled by `Res.err`, an
error message paired with the accumulator state at the moment of the raise.
External collaborators that live outside this repository (the biorbd model
marker evaluator, the dof mapping, the discretized dynamics integrator, the
contact-force evaluator of `dynamics.py`) enter as function-valued fields of
the per-phase record `PhaseNLP`, exactly as they are consumed at the call
sites in the two source files.
-/

namespace BiorbdOptim

/-- A symbolic CasADi MX scalar.  `vsym phase idx` is entry `idx` of the
decision-vector symbol `V_phase` built per phase; `tsym phase` is the free
time-parameter symbol `time_phase_i`; `sub` and `scale` are the arithmetic
the constraint builders perform on symbols. -/
inductive MXs
  | vsym (phase idx : Nat)
  | tsym (phase : Nat)
  | sub (a b : MXs)
  | scale (c : ℚ) (a : MXs)
deriving DecidableEq

/-- A 3-D point returned by the biorbd marker evaluator. -/
def Vec3 : Type := MXs × MXs × MXs

/-- Componentwise difference of two 3-D points, as the three rows that
`vertcat(ocp.g, marker1 - marker2)` appends. -/
def Vec3.sub3 (a b : Vec3) : List MXs :=
  [MXs.sub a.1 b.1, MXs.sub a.2.1 b.2.1, MXs.sub a.2.2 b.2.2]

/-- The global constraint accumulator: `ocp.g`, `ocp.g_bounds.min`,
`ocp.g_bounds.max`. -/
structure OcpState where
  g : List MXs
  gmin : List ℚ
  gmax : List ℚ
deriving DecidableEq

/-- Result of a constraint pass: normal return, or a Python exception
carrying the accumulator state at the moment of the raise. -/
inductive Res
  | ok (s : OcpState)
  | err (msg : String) (s : OcpState)
deriving DecidableEq

/-- Sequencing of passes: an exception aborts the rest. -/
def Res.andThen (r : Res) (f : OcpState → Res) : Res :=
  match r with
  | .ok s => f s
  | .err m s => .err m s

/-- Python list subscription `l[i]` for a nonnegative index. -/
def pyGetL {α : Type} (l : List α) (i : Nat) : Except String α :=
  match l.get? i with
  | some a => .ok a
  | none => .error "IndexError: list index out of range"

/-- Python list subscription `l[-1]`. -/
def pyLast {α : Type} (l : List α) : Except String α :=
  match l.getLast? with
  | some a => .ok a
  | none => .error "IndexError: list index out of range"

/-- Python slice `l[1:stop]` for a nonnegative `stop`. -/
def pySlice1 {α : Type} (l : List α) (stop : Nat) : List α :=
  (l.take stop).drop 1

/-- CasADi subtraction of two column vectors: shapes must agree, otherwise
the expression graph construction raises. -/
def casadiSub (a b : List MXs) : Except String (List MXs) :=
  if a.length = b.length then .ok (List.zipWith MXs.sub a b)
  else .error "RuntimeError: MX shapes do not match"

/-- The `BidirectionalMapping` collaborator (`mapping.py`, outside this
repository) as consumed by `constraints.py`: a reduced-coordinate count and
the reduced-to-full expansion. -/
structure BidirectionalMapping where
  nb_reduced : Nat
  expand : List MXs → List MXs

/-- Time parameterization of a phase: `nlp["tf"]` is either a fixed number
or a CasADi MX symbol created by `__init_phase_time` for a phase whose
duration is optimized. -/
inductive Duration
  | fixed (val : ℚ)
  | sym (phase : Nat)

/-- Returns true exactly when the duration is a free (symbolic) time parameter,
i.e. the Python test `isinstance(nlp["tf"], casadi.MX)`. -/
def Duration.isSym : Duration → Bool
  | .sym _ => true
  | .fixed _ => false

/-- The OdeSolver members used by `__prepare_dynamics` (the enum itself lives
in `enums.py`; only the three members consumed there are modelled). -/
inductive OdeSolver
  | RK
  | COLLOCATION
  | CVODES
deriving DecidableEq

/-- The node-group tags of `Constraint.Instant` in `constraints.py`. -/
inductive Instant
  | START
  | MID
  | INTERMEDIATES
  | END
  | ALL
deriving DecidableEq

/-- The proportionality policy `elem[2]` of a proportional constraint:
either a single `(index_a, index_b, coefficient)` triple or a tuple of such
triples (the `isinstance(policy[0], tuple)` dispatch). -/
inductive PropPolicy
  | single (a b : Nat) (coef : ℚ)
  | multi (elems : List (Nat × Nat × ℚ))

/-- A `Constraint.Type` member together with its policy payload `elem[2]`. -/
inductive CKind
  | markersToPair (m1 m2 : Nat)
  | proportionalQ (pol : PropPolicy)
  | proportionalControl (pol : PropPolicy)
  | contactForceGreaterThan (direction : Nat) (threshold : ℚ)

/-- One entry `elem` of `nlp["constraints"]`: `elem[0]`/`elem[2]` are fused
in `ctype`, `elem[1]` is `instant`. -/
structure ConstraintEntry where
  ctype : CKind
  instant : Instant

/-- The per-phase dictionary `nlp` (built as a Python `dict` in
`OptimalControlProgram.__init__`), restricted to the keys the two source
files read.  Function-valued fields are the external collaborators. -/
structure PhaseNLP where
  ns : Nat
  nx : Nat
  nu : Nat
  tf : Duration
  ode_solver : OdeSolver
  X : List (List MXs)
  U : List (List MXs)
  dynamics : List MXs → List MXs → List MXs
  dof_mapping : BidirectionalMapping
  marker : List MXs → Nat → Vec3
  get_forces_from_contact : List MXs → List MXs → List MXs
  constraints : List ConstraintEntry

/-- Python attribute read `nlp.ns` (constraints.py line 50).  The per-phase
`nlp` is a plain `dict` (optimal_control_program.py line 76), and a plain
dict stores user data under keys, not attributes, so this read raises
`AttributeError` no matter what the dict contains; every other access in
the file is an item read `nlp[...]`. -/
def PhaseNLP.attrNs (_nlp : PhaseNLP) : Except String Nat :=
  .error "AttributeError: dict object has no attribute ns"

/-- The `ocp` fields consumed by `Constraint.continuity_constraint`. -/
structure OCP where
  nlp : List PhaseNLP
  is_cyclic_constraint : Bool

/-- Fold a fallible step over a list, aborting at the first exception
(sequential Python `for` loop over appends to `ocp`). -/
def foldRes {α : Type} (f : α → OcpState → Res) : List α → OcpState → Res
  | [], s => .ok s
  | a :: l, s => (f a s).andThen (foldRes f l)

/-- The three rows `marker(q, m1) - marker(q, m2)` appended per selected
node by `Constraint.__markers_to_pair`, with `q` the full coordinates
expanded from the reduced ones through the dof mapping. -/
def markerRows (nlp : PhaseNLP) (m1 m2 : Nat) (x : List MXs) : List MXs :=
  let q := nlp.dof_mapping.expand (x.take nlp.dof_mapping.nb_reduced)
  Vec3.sub3 (nlp.marker q m1) (nlp.marker q m2)

/-- Translation of `Constraint.__markers_to_pair`: for each selected node append the
3-row marker difference to `g` and three `(0, 0)` bound pairs. -/
def markers_to_pair (nlp : PhaseNLP) (X : List (List MXs)) (m1 m2 : Nat)
    (s : OcpState) : OcpState :=
  X.foldl (fun s x =>
    ⟨s.g ++ markerRows nlp m1 m2 x, s.gmin ++ [0, 0, 0], s.gmax ++ [0, 0, 0]⟩) s

/-- One appended row of `Constraint.__proportional_variable`:
`v[a] - coef * v[b]` on the expanded vector, with its `(0, 0)` bound pair. -/
def propAppendRow (nlp : PhaseNLP) (a b : Nat) (coef : ℚ) (v : List MXs)
    (s : OcpState) : Res :=
  match pyGetL (nlp.dof_mapping.expand v) a with
  | .error m => .err m s
  | .ok va =>
    match pyGetL (nlp.dof_mapping.expand v) b with
    | .error m => .err m s
    | .ok vb =>
      .ok ⟨s.g ++ [MXs.sub va (MXs.scale coef vb)], s.gmin ++ [0], s.gmax ++ [0]⟩

/-- Translation of `Constraint.__proportional_variable`: one equality row per triple per
selected node (outer loop over triples in the tuple-of-tuples case). -/
def proportional_variable (nlp : PhaseNLP) (V : List (List MXs))
    (pol : PropPolicy) (s : OcpState) : Res :=
  match pol with
  | .single a b coef => foldRes (propAppendRow nlp a b coef) V s
  | .multi elems =>
      foldRes (fun e => foldRes (propAppendRow nlp e.1 e.2.1 e.2.2) V) elems s

/-- The loop body of `Constraint.__contact_force_inequality`: it evaluates
`Dynamics.get_forces_from_contact(X[i], U[i], nlp)` and binds the result to
a local, never touching `ocp.g` or `ocp.g_bounds`. -/
def cfiLoop (nlp : PhaseNLP) (X U : List (List MXs)) :
    Nat → Nat → OcpState → Res
  | _, 0, s => .ok s
  | i, m + 1, s =>
    match pyGetL X i with
    | .error msg => .err msg s
    | .ok xi =>
      match pyGetL U i with
      | .error msg => .err msg s
      | .ok ui =>
        let _contact_forces := nlp.get_forces_from_contact xi ui
        cfiLoop nlp X U (i + 1) m s

/-- Translation of `Constraint.__contact_force_inequality`: the loop `for i in range(len(U))`. -/
def contact_force_inequality (nlp : PhaseNLP) (X U : List (List MXs))
    (s : OcpState) : Res :=
  cfiLoop nlp X U 0 U.length s

/-- The node-selection prelude of `Constraint.add_constraints`: from the
instant tag, the lists `x` and `u` of selected state and control nodes. -/
def selectNodes (nlp : PhaseNLP) (inst : Instant) :
    Except String (List (List MXs) × List (List MXs)) :=
  match inst with
  | .START =>
    match pyGetL nlp.X 0 with
    | .error m => .error m
    | .ok x0 =>
      match pyGetL nlp.U 0 with
      | .error m => .error m
      | .ok u0 => .ok ([x0], [u0])
  | .MID =>
    match nlp.attrNs with
    | .error m => .error m
    | .ok nsAttr =>
      if nsAttr % 2 = 0 then
        .error "ValueError: Number of shooting points must be odd to use MID"
      else
        match pyGetL nlp.X (nlp.ns / 2 + 1) with
        | .error m => .error m
        | .ok xm =>
          match pyGetL nlp.U (nlp.ns / 2 + 1) with
          | .error m => .error m
          | .ok um => .ok ([xm], [um])
  | .INTERMEDIATES =>
    .ok (pySlice1 nlp.X (nlp.ns - 1), pySlice1 nlp.U (nlp.ns - 1))
  | .END =>
    match pyGetL nlp.X nlp.ns with
    | .error m => .error m
    | .ok xe => .ok ([xe], [])
  | .ALL => .ok (nlp.X, nlp.U)

/-- Dispatch on `elem[0]` after node selection, for one constraint entry of
`Constraint.add_constraints`. -/
def applyEntry (nlp : PhaseNLP) (elem : ConstraintEntry) (s : OcpState) : Res :=
  match selectNodes nlp elem.instant with
  | .error m => .err m s
  | .ok xu =>
    match elem.ctype with
    | .markersToPair m1 m2 => .ok (markers_to_pair nlp xu.1 m1 m2 s)
    | .proportionalQ pol => proportional_variable nlp xu.1 pol s
    | .proportionalControl pol =>
      if elem.instant = Instant.END then
        .err "RuntimeError: A proportional control does not make sense at the last node" s
      else proportional_variable nlp xu.2 pol s
    | .contactForceGreaterThan _ _ =>
      if elem.instant = Instant.END then
        .err "RuntimeError: Instant.END is used even though there is no control u at last node" s
      else contact_force_inequality nlp xu.1 xu.2 s

/-- Translation of `Constraint.add_constraints`: the loop over `nlp["constraints"]`. -/
def add_constraints (nlp : PhaseNLP) (s : OcpState) : Res :=
  foldRes (applyEntry nlp) nlp.constraints s

/-- One iteration `k` of the intra-phase loop of
`Constraint.continuity_constraint`: evaluate the discretized dynamics on
`(X[k], U[k])`, append the `nx`-row residual `end_node - X[k+1]` and `nx`
bound pairs `(0, 0)`. -/
def intraStep (nlp : PhaseNLP) (k : Nat) (s : OcpState) : Res :=
  match pyGetL nlp.X k with
  | .error m => .err m s
  | .ok xk =>
    match pyGetL nlp.U k with
    | .error m => .err m s
    | .ok uk =>
      match pyGetL nlp.X (k + 1) with
      | .error m => .err m s
      | .ok xk1 =>
        match casadiSub (nlp.dynamics xk uk) xk1 with
        | .error m => .err m s
        | .ok rows =>
          .ok ⟨s.g ++ rows, s.gmin ++ List.replicate nlp.nx 0,
               s.gmax ++ List.replicate nlp.nx 0⟩

/-- The loop `for k in range(ns)` over `intraStep`, starting at index `k` with `m`
iterations left. -/
def intraLoop (nlp : PhaseNLP) : Nat → Nat → OcpState → Res
  | _, 0, s => .ok s
  | k, m + 1, s => (intraStep nlp k s).andThen (intraLoop nlp (k + 1) m)

/-- First block of `Constraint.continuity_constraint`: the intra-phase
loops of every phase, in phase order. -/
def continuityIntraAll (phases : List PhaseNLP) : OcpState → Res :=
  foldRes (fun nlp s => intraLoop nlp 0 nlp.ns s) phases

/-- Second block of `Constraint.continuity_constraint`: for each adjacent
phase pair `(i, i+1)`, require equal `nx` (else raise), then append the
`nx`-row residual `nlp[i].X[-1] - nlp[i+1].X[0]` with `(0, 0)` bounds. -/
def interLoop : List PhaseNLP → OcpState → Res
  | [], s => .ok s
  | [_], s => .ok s
  | a :: b :: rest, s =>
    if a.nx ≠ b.nx then
      .err "RuntimeError: Phase constraints without same nx is not supported yet" s
    else
      match pyLast a.X with
      | .error m => .err m s
      | .ok xa =>
        match pyGetL b.X 0 with
        | .error m => .err m s
        | .ok xb =>
          match casadiSub xa xb with
          | .error m => .err m s
          | .ok rows =>
            interLoop (b :: rest)
              ⟨s.g ++ rows, s.gmin ++ List.replicate a.nx 0,
               s.gmax ++ List.replicate a.nx 0⟩

/-- Third block of `Constraint.continuity_constraint`, run only when
`ocp.is_cyclic_constraint`: require equal `nx` of first and last phase,
then append `nlp[-1].X[-1] - nlp[0].X[0]` with `nx` bound pairs `(0, 0)`. -/
def cyclicPart (phases : List PhaseNLP) (s : OcpState) : Res :=
  match pyGetL phases 0 with
  | .error m => .err m s
  | .ok p0 =>
    match pyLast phases with
    | .error m => .err m s
    | .ok pl =>
      if p0.nx ≠ pl.nx then
        .err "RuntimeError: Cyclic constraint without same nx is not supported yet" s
      else
        match pyLast pl.X with
        | .error m => .err m s
        | .ok xl =>
          match pyGetL p0.X 0 with
          | .error m => .err m s
          | .ok x0 =>
            match casadiSub xl x0 with
            | .error m => .err m s
            | .ok rows =>
              .ok ⟨s.g ++ rows, s.gmin ++ List.replicate p0.nx 0,
                   s.gmax ++ List.replicate p0.nx 0⟩

/-- Translation of `Constraint.continuity_constraint`: the three blocks in source order. -/
def continuity_constraint (ocp : OCP) (s : OcpState) : Res :=
  (continuityIntraAll ocp.nlp s).andThen fun s1 =>
    (interLoop ocp.nlp s1).andThen fun s2 =>
      if ocp.is_cyclic_constraint then cyclicPart ocp.nlp s2 else .ok s2

/-- The strategy selected by `OptimalControlProgram.__prepare_dynamics`
(the integrator object itself is the external CasADi collaborator). -/
inductive DynStrategy
  | rk4
  | collocation
  | cvodes
deriving DecidableEq

/-- Translation of `OptimalControlProgram.__prepare_dynamics`: the RK branch builds the
RK4 integrator unconditionally, while the collocation and CVODES branches
first raise if `nlp["tf"]` is a CasADi MX symbol (a free duration). -/
def prepare_dynamics (solver : OdeSolver) (tf : Duration) :
    Except String DynStrategy :=
  match solver with
  | .RK => .ok .rk4
  | .COLLOCATION =>
    match tf with
    | .sym _ =>
      .error "RuntimeError: OdeSolver.COLLOCATION cannot be used while optimizing the time parameter"
    | .fixed _ => .ok .collocation
  | .CVODES =>
    match tf with
    | .sym _ =>
      .error "RuntimeError: OdeSolver.CVODES cannot be used while optimizing the time parameter"
    | .fixed _ => .ok .cvodes

/-- The dimension-uniformity check and dynamics preparation loop of
`OptimalControlProgram.__init__` (`for i in range(self.nb_phases)`): raise
on the first phase whose `nx` or `nu` differs from those of phase 0, else
prepare that phase dynamics. -/
def dimsPrepLoop (p0 : PhaseNLP) : List PhaseNLP → Except String Unit
  | [] => .ok ()
  | p :: rest =>
    if p0.nx ≠ p.nx ∨ p0.nu ≠ p.nu then
      .error "RuntimeError: Dynamics with different nx or nu is not supported yet"
    else
      match prepare_dynamics p.ode_solver p.tf with
      | .error m => .error m
      | .ok _ => dimsPrepLoop p0 rest

/-- The dynamics-definition stage of `__init__`: build the symbolic state
of phase 0 (raising on an empty phase list), then run the check loop. -/
def prepareAllDynamics (phases : List PhaseNLP) : Except String Unit :=
  match pyGetL phases 0 with
  | .error m => .error m
  | .ok p0 => dimsPrepLoop p0 phases

/-- The constraint-building tail of `OptimalControlProgram.__init__`: the
dynamics stage runs first; only after it succeeds are `self.g` and
`self.g_bounds` created empty and filled by the continuity pass and the
per-phase `add_constraints` passes.  A raise in the dynamics stage
therefore happens while no constraint accumulator exists: the error state
is the empty one. -/
def build_ocp_constraints (ocp : OCP) : Res :=
  match prepareAllDynamics ocp.nlp with
  | .error m => .err m ⟨[], [], []⟩
  | .ok _ =>
    (continuity_constraint ocp ⟨[], [], []⟩).andThen
      (foldRes add_constraints ocp.nlp)

/-- The per-phase decision-vector size `nV` declared at
optimal_control_program.py line 229. -/
def nV (nx nu ns : Nat) : Nat := nx * (ns + 1) + nu * ns

/-- The contiguous slice `V.nz[off : off + n]` of the phase decision-vector
symbol of phase `phase`. -/
def sliceV (phase off n : Nat) : List MXs :=
  (List.range n).map fun j => MXs.vsym phase (off + j)

/-- The offset loop of `__define_multiple_shooting_nodes_per_phase`, with
`m` loop iterations left at offset `off`: each iteration takes a state
slice then a control slice; after the loop one final state slice is taken.
Returns `(X, U, final offset)`. -/
def msLoop (phase nx nu : Nat) :
    Nat → Nat → List (List MXs) × List (List MXs) × Nat
  | 0, off => ([sliceV phase off nx], [], off + nx)
  | m + 1, off =>
    let rest := msLoop phase nx nu m (off + nx + nu)
    (sliceV phase off nx :: rest.1, sliceV phase (off + nx) nu :: rest.2.1,
     rest.2.2)

/-- The per-phase blocks appended to the global decision vector `self.V`
by the `for i in range(self.nb_phases)` loop of `__init__`: phase `i`
contributes its symbol vector of declared length `nV`. -/
def phasesVBase : Nat → List PhaseNLP → List MXs
  | _, [] => []
  | i, p :: rest => sliceV i 0 (nV p.nx p.nu p.ns) ++ phasesVBase (i + 1) rest

/-- Translation of `OptimalControlProgram.__define_variable_time`: for each phase whose
`tf` is a CasADi MX symbol, append that symbol (one scalar) to `self.V`. -/
def defineVariableTime : List PhaseNLP → List MXs
  | [] => []
  | p :: rest =>
    (match p.tf with
     | .sym j => [MXs.tsym j]
     | .fixed _ => []) ++ defineVariableTime rest

/-- The flat decision vector `self.V` after the shooting-node loop and
`__define_variable_time`. -/
def buildV (phases : List PhaseNLP) : List MXs :=
  phasesVBase 0 phases ++ defineVariableTime phases

/-- The step length of `__init__` line 90:
`dt = tf / max(ns, 1)` (for a fixed numeric duration). -/
def dtOf (tf : ℚ) (ns : Nat) : ℚ := tf / (max ns 1 : ℕ)

/-- The bookkeeping guarantees the decision-vector layout gives each phase:
node counts, slice widths, and dynamics output width (the discretized
transition returns an `nx`-row state).  These hold for the records built by
`__define_multiple_shooting_nodes_per_phase`. -/
structure PhaseWf (nlp : PhaseNLP) : Prop where
  hXlen : nlp.X.length = nlp.ns + 1
  hXrow : ∀ x ∈ nlp.X, x.length = nlp.nx
  hUlen : nlp.U.length = nlp.ns
  hdyn : ∀ x u, (nlp.dynamics x u).length = nlp.nx

/-- The row/bound lockstep invariant of the global constraint vector. -/
def lockstep (s : OcpState) : Prop :=
  s.gmin.length = s.g.length ∧ s.gmax.length = s.g.length

/-- Lockstep of the state carried by a pass result, whether it returned
normally or raised. -/
def Res.lockstep : Res → Prop
  | .ok s => BiorbdOptim.lockstep s
  | .err _ s => BiorbdOptim.lockstep s

/-- The identity dof mapping (the default when the user declares none). -/
def idMapping (n : Nat) : BidirectionalMapping := ⟨n, fun l => l⟩

/-- A concrete phase record carrying the state and control nodes produced
by the shooting-node layout and simple concrete collaborators; used to
instantiate the theorems below at explicit inputs. -/
def mkNlp (ns nx nu : Nat) (cons : List ConstraintEntry) : PhaseNLP where
  ns := ns
  nx := nx
  nu := nu
  tf := Duration.fixed 1
  ode_solver := OdeSolver.RK
  X := (msLoop 0 nx nu ns 0).1
  U := (msLoop 0 nx nu ns 0).2.1
  dynamics := fun _ _ => List.replicate nx (MXs.vsym 99 0)
  dof_mapping := idMapping nx
  marker := fun _ m => (MXs.vsym 90 m, MXs.vsym 91 m, MXs.vsym 92 m)
  get_forces_from_contact := fun x _ => x
  constraints := cons

/-- The empty constraint accumulator, as created by `self.g = []`,
`self.g_bounds = Bounds()`. -/
def emptyState : OcpState := ⟨[], [], []⟩

/-- A concrete constraint list touching the coincidence, proportional and
contact-force kinds, for instantiating the invariant theorems. -/
def witnessEntries : List ConstraintEntry :=
  [⟨CKind.markersToPair 0 1, Instant.ALL⟩,
   ⟨CKind.proportionalQ (PropPolicy.single 0 1 (1 / 2)), Instant.START⟩,
   ⟨CKind.contactForceGreaterThan 0 5, Instant.START⟩]

/-- A concrete two-phase program (both phases with `nx = 2`, `nu = 1`) with
cyclic continuity requested. -/
def ocpTwoPhase : OCP := ⟨[mkNlp 2 2 1 [], mkNlp 3 2 1 []], true⟩

/-- A concrete two-phase program whose adjacent phases disagree on `nx`. -/
def ocpMismatch : OCP := ⟨[mkNlp 2 2 1 [], mkNlp 2 3 1 []], false⟩

lemma pyGetL_lt {α : Type} {l : List α} {i : Nat} (h : i < l.length) :
    ∃ a, pyGetL l i = .ok a ∧ a ∈ l :=
  ⟨l.get ⟨i, h⟩, by simp [pyGetL, List.get?_eq_get h, List.getElem?_eq_getElem h],
    List.get_mem l _ _⟩

lemma pyLast_ok {α : Type} {l : List α} (h : l ≠ []) :
    ∃ a, pyLast l = .ok a ∧ a ∈ l := by
  refine ⟨l.getLast h, ?_, List.getLast_mem h⟩
  simp [pyLast, List.getLast?_eq_getLast l h]

lemma casadiSub_ok_len {a b r : List MXs} (h : casadiSub a b = .ok r) :
    r.length = a.length ∧ a.length = b.length := by
  by_cases hab : a.length = b.length
  · simp only [casadiSub, if_pos hab] at h
    cases h
    constructor
    · simp [List.length_zipWith, hab]
    · exact hab
  · simp [casadiSub, if_neg hab] at h

lemma lockstep_append {s : OcpState} {rows : List MXs} {n : Nat}
    (h : lockstep s) (hr : rows.length = n) :
    lockstep ⟨s.g ++ rows, s.gmin ++ List.replicate n 0,
              s.gmax ++ List.replicate n 0⟩ := by
  constructor <;> simp [h.1, h.2, hr]

lemma foldRes_lockstep {α : Type} {f : α → OcpState → Res}
    (hf : ∀ a s, lockstep s → (f a s).lockstep) :
    ∀ (l : List α) (s : OcpState), lockstep s → (foldRes f l s).lockstep := by
  intro l
  induction l with
  | nil => intro s hs; exact hs
  | cons a l ih =>
    intro s hs
    have := hf a s hs
    unfold foldRes
    cases hfa : f a s with
    | ok s1 => rw [hfa] at this; exact ih s1 this
    | err m s1 => rw [hfa] at this; simpa [Res.andThen, Res.lockstep] using this

lemma markerRows_length (nlp : PhaseNLP) (m1 m2 : Nat) (x : List MXs) :
    (markerRows nlp m1 m2 x).length = 3 := by
  simp [markerRows, Vec3.sub3]

lemma flatMap_markerRows_length (nlp : PhaseNLP) (m1 m2 : Nat) :
    ∀ X : List (List MXs),
    (X.flatMap (markerRows nlp m1 m2)).length = 3 * X.length := by
  intro X
  induction X with
  | nil => simp
  | cons x X ih =>
    simp only [List.flatMap_cons, List.length_append, markerRows_length, ih,
      List.length_cons]
    ring

lemma markers_to_pair_eq (nlp : PhaseNLP) (m1 m2 : Nat) :
    ∀ (X : List (List MXs)) (s : OcpState),
    markers_to_pair nlp X m1 m2 s =
      ⟨s.g ++ X.flatMap (markerRows nlp m1 m2),
       s.gmin ++ List.replicate (3 * X.length) 0,
       s.gmax ++ List.replicate (3 * X.length) 0⟩ := by
  intro X
  induction X with
  | nil => intro s; simp [markers_to_pair]
  | cons x X ih =>
    intro s
    have h3 : 3 * (X.length + 1) = 3 + 3 * X.length := by ring
    calc markers_to_pair nlp (x :: X) m1 m2 s
        = markers_to_pair nlp X m1 m2
            ⟨s.g ++ markerRows nlp m1 m2 x, s.gmin ++ [0, 0, 0],
             s.gmax ++ [0, 0, 0]⟩ := rfl
      _ = _ := by
            rw [ih]
            simp only [List.flatMap_cons, List.length_cons, h3,
              List.replicate_add]
            simp [List.append_assoc]

lemma markers_to_pair_lockstep (nlp : PhaseNLP) (m1 m2 : Nat)
    (X : List (List MXs)) (s : OcpState) (hs : lockstep s) :
    lockstep (markers_to_pair nlp X m1 m2 s) := by
  rw [markers_to_pair_eq]
  exact lockstep_append hs (flatMap_markerRows_length nlp m1 m2 X)

lemma propAppendRow_lockstep (nlp : PhaseNLP) (a b : Nat) (coef : ℚ)
    (v : List MXs) (s : OcpState) (hs : lockstep s) :
    (propAppendRow nlp a b coef v s).lockstep := by
  unfold propAppendRow
  cases pyGetL (nlp.dof_mapping.expand v) a with
  | error m => exact hs
  | ok va =>
    cases pyGetL (nlp.dof_mapping.expand v) b with
    | error m => exact hs
    | ok vb =>
      constructor <;> simp [hs.1, hs.2]

lemma proportional_variable_lockstep (nlp : PhaseNLP) (V : List (List MXs))
    (pol : PropPolicy) (s : OcpState) (hs : lockstep s) :
    (proportional_variable nlp V pol s).lockstep := by
  cases pol with
  | single a b coef =>
    exact foldRes_lockstep (fun v s hs => propAppendRow_lockstep nlp a b coef v s hs) V s hs
  | multi elems =>
    exact foldRes_lockstep
      (fun e s hs => foldRes_lockstep
        (fun v s hs => propAppendRow_lockstep nlp e.1 e.2.1 e.2.2 v s hs) V s hs)
      elems s hs

lemma cfiLoop_state (nlp : PhaseNLP) (X U : List (List MXs)) :
    ∀ (m i : Nat) (s : OcpState),
    cfiLoop nlp X U i m s = .ok s ∨ ∃ msg, cfiLoop nlp X U i m s = .err msg s := by
  intro m
  induction m with
  | zero => intro i s; left; rfl
  | succ m ih =>
    intro i s
    unfold cfiLoop
    cases pyGetL X i with
    | error msg => right; exact ⟨msg, rfl⟩
    | ok xi =>
      cases pyGetL U i with
      | error msg => right; exact ⟨msg, rfl⟩
      | ok ui => exact ih (i + 1) s

lemma contact_force_inequality_state (nlp : PhaseNLP) (X U : List (List MXs))
    (s : OcpState) :
    contact_force_inequality nlp X U s = .ok s ∨
      ∃ msg, contact_force_inequality nlp X U s = .err msg s :=
  cfiLoop_state nlp X U U.length 0 s

lemma pyGetL_mem {α : Type} {l : List α} {i : Nat} {a : α}
    (h : pyGetL l i = .ok a) : a ∈ l := by
  unfold pyGetL at h
  cases hg : l.get? i with
  | none => rw [hg] at h; cases h
  | some b =>
    rw [hg] at h
    injection h with hba
    subst hba
    exact List.get?_mem hg

lemma pyLast_mem {α : Type} {l : List α} {a : α}
    (h : pyLast l = .ok a) : a ∈ l := by
  unfold pyLast at h
  cases hg : l.getLast? with
  | none => rw [hg] at h; cases h
  | some b =>
    rw [hg] at h
    injection h with hba
    subst hba
    obtain ⟨hne, heq⟩ := List.mem_getLast?_eq_getLast (show b ∈ l.getLast? from hg)
    rw [heq]
    exact List.getLast_mem hne

lemma foldRes_lockstep_mem {α : Type} {f : α → OcpState → Res} :
    ∀ l : List α, (∀ a ∈ l, ∀ s, lockstep s → (f a s).lockstep) →
    ∀ s : OcpState, lockstep s → (foldRes f l s).lockstep := by
  intro l
  induction l with
  | nil => intro _ s hs; exact hs
  | cons a l ih =>
    intro hf s hs
    have := hf a (by simp) s hs
    unfold foldRes
    cases hfa : f a s with
    | ok s1 =>
      rw [hfa] at this
      exact ih (fun b hb => hf b (by simp [hb])) s1 this
    | err m s1 =>
      rw [hfa] at this
      simpa [Res.andThen, Res.lockstep] using this

lemma intraStep_ok (nlp : PhaseNLP) (wf : PhaseWf nlp) (k : Nat) (s : OcpState)
    (hk : k < nlp.ns) :
    ∃ rows, intraStep nlp k s =
        .ok ⟨s.g ++ rows, s.gmin ++ List.replicate nlp.nx 0,
             s.gmax ++ List.replicate nlp.nx 0⟩ ∧
      rows.length = nlp.nx := by
  obtain ⟨xk, hxk, _⟩ := pyGetL_lt (l := nlp.X) (i := k)
    (by rw [wf.hXlen]; omega)
  obtain ⟨uk, huk, _⟩ := pyGetL_lt (l := nlp.U) (i := k)
    (by rw [wf.hUlen]; omega)
  obtain ⟨xk1, hxk1, hmem⟩ := pyGetL_lt (l := nlp.X) (i := k + 1)
    (by rw [wf.hXlen]; omega)
  have hd : (nlp.dynamics xk uk).length = nlp.nx := wf.hdyn xk uk
  have hx1 : xk1.length = nlp.nx := wf.hXrow xk1 hmem
  have hsub : casadiSub (nlp.dynamics xk uk) xk1 =
      .ok (List.zipWith MXs.sub (nlp.dynamics xk uk) xk1) := by
    simp [casadiSub, hd, hx1]
  refine ⟨List.zipWith MXs.sub (nlp.dynamics xk uk) xk1, ?_, ?_⟩
  · unfold intraStep
    rw [hxk]
    dsimp only
    rw [huk]
    dsimp only
    rw [hxk1]
    dsimp only
    rw [hsub]
  · simp [List.length_zipWith, hd, hx1]

lemma intraStep_lockstep (nlp : PhaseNLP)
    (hdyn : ∀ x u, (nlp.dynamics x u).length = nlp.nx)
    (k : Nat) (s : OcpState) (hs : lockstep s) :
    (intraStep nlp k s).lockstep := by
  unfold intraStep
  cases pyGetL nlp.X k with
  | error m => exact hs
  | ok xk =>
    cases pyGetL nlp.U k with
    | error m => exact hs
    | ok uk =>
      cases pyGetL nlp.X (k + 1) with
      | error m => exact hs
      | ok xk1 =>
        dsimp only
        cases hsub : casadiSub (nlp.dynamics xk uk) xk1 with
        | error m => exact hs
        | ok rows =>
          have hr : rows.length = nlp.nx := by
            rw [(casadiSub_ok_len hsub).1, hdyn]
          exact lockstep_append hs hr

lemma intraLoop_ok (nlp : PhaseNLP) (wf : PhaseWf nlp) :
    ∀ (m k : Nat) (s : OcpState), k + m ≤ nlp.ns →
    ∃ rows, intraLoop nlp k m s =
        .ok ⟨s.g ++ rows, s.gmin ++ List.replicate (m * nlp.nx) 0,
             s.gmax ++ List.replicate (m * nlp.nx) 0⟩ ∧
      rows.length = m * nlp.nx := by
  intro m
  induction m with
  | zero => intro k s _; exact ⟨[], by simp [intraLoop], by simp⟩
  | succ m ih =>
    intro k s hkm
    obtain ⟨rows1, h1, hr1⟩ := intraStep_ok nlp wf k s (by omega)
    obtain ⟨rows2, h2, hr2⟩ := ih (k + 1)
      ⟨s.g ++ rows1, s.gmin ++ List.replicate nlp.nx 0,
       s.gmax ++ List.replicate nlp.nx 0⟩ (by omega)
    refine ⟨rows1 ++ rows2, ?_, ?_⟩
    · show (intraStep nlp k s).andThen (intraLoop nlp (k + 1) m) = _
      rw [h1]
      show intraLoop nlp (k + 1) m _ = _
      rw [h2]
      have hmul : nlp.nx + m * nlp.nx = (m + 1) * nlp.nx := by ring
      simp only [List.append_assoc, ← List.replicate_add, hmul]
    · simp only [List.length_append, hr1, hr2]
      ring

lemma intraLoop_lockstep (nlp : PhaseNLP)
    (hdyn : ∀ x u, (nlp.dynamics x u).length = nlp.nx) :
    ∀ (m k : Nat) (s : OcpState), lockstep s →
    (intraLoop nlp k m s).lockstep := by
  intro m
  induction m with
  | zero => intro k s hs; exact hs
  | succ m ih =>
    intro k s hs
    show ((intraStep nlp k s).andThen (intraLoop nlp (k + 1) m)).lockstep
    have := intraStep_lockstep nlp hdyn k s hs
    cases h : intraStep nlp k s with
    | ok s1 =>
      rw [h] at this
      exact ih (k + 1) s1 this
    | err m1 s1 =>
      rw [h] at this
      exact this

lemma continuityIntraAll_ok :
    ∀ (phases : List PhaseNLP), (∀ p ∈ phases, PhaseWf p) → ∀ s : OcpState,
    ∃ rows, continuityIntraAll phases s =
        .ok ⟨s.g ++ rows,
             s.gmin ++ List.replicate ((phases.map fun p => p.ns * p.nx).sum) 0,
             s.gmax ++ List.replicate ((phases.map fun p => p.ns * p.nx).sum) 0⟩ ∧
      rows.length = (phases.map fun p => p.ns * p.nx).sum := by
  intro phases
  induction phases with
  | nil => intro _ s; exact ⟨[], by simp [continuityIntraAll, foldRes], by simp⟩
  | cons p rest ih =>
    intro hwf s
    obtain ⟨rows1, h1, hr1⟩ := intraLoop_ok p (hwf p (by simp)) p.ns 0 s (by omega)
    obtain ⟨rows2, h2, hr2⟩ := ih (fun q hq => hwf q (by simp [hq]))
      ⟨s.g ++ rows1, s.gmin ++ List.replicate (p.ns * p.nx) 0,
       s.gmax ++ List.replicate (p.ns * p.nx) 0⟩
    refine ⟨rows1 ++ rows2, ?_, ?_⟩
    · show (intraLoop p 0 p.ns s).andThen (continuityIntraAll rest) = _
      rw [h1]
      show continuityIntraAll rest _ = _
      rw [h2]
      simp only [List.map_cons, List.sum_cons, List.append_assoc,
        ← List.replicate_add]
    · simp only [List.length_append, hr1, hr2, List.map_cons, List.sum_cons]

lemma interLoop_ok (nx0 : Nat) :
    ∀ (phases : List PhaseNLP), (∀ p ∈ phases, PhaseWf p) →
      (∀ p ∈ phases, p.nx = nx0) → ∀ s : OcpState,
    ∃ rows, interLoop phases s =
        .ok ⟨s.g ++ rows,
             s.gmin ++ List.replicate ((phases.length - 1) * nx0) 0,
             s.gmax ++ List.replicate ((phases.length - 1) * nx0) 0⟩ ∧
      rows.length = (phases.length - 1) * nx0 := by
  intro phases
  induction phases with
  | nil => intro _ _ s; exact ⟨[], by simp [interLoop], by simp⟩
  | cons a rest ih =>
    cases rest with
    | nil => intro _ _ s; exact ⟨[], by simp [interLoop], by simp⟩
    | cons b rest2 =>
      intro hwf hnx s
      have hwa : PhaseWf a := hwf a (by simp)
      have hwb : PhaseWf b := hwf b (by simp)
      have hxa : a.nx = nx0 := hnx a (by simp)
      have hxb : b.nx = nx0 := hnx b (by simp)
      have hXa : a.X ≠ [] := by
        intro hcon
        have := hwa.hXlen
        rw [hcon] at this
        simp at this
      obtain ⟨xa, hgeta, hmema⟩ := pyLast_ok hXa
      obtain ⟨xb, hgetb, hmemb⟩ := pyGetL_lt (l := b.X) (i := 0)
        (by rw [hwb.hXlen]; omega)
      have hla : xa.length = nx0 := by rw [hwa.hXrow xa hmema, hxa]
      have hlb : xb.length = nx0 := by rw [hwb.hXrow xb hmemb, hxb]
      have hsub : casadiSub xa xb = .ok (List.zipWith MXs.sub xa xb) := by
        simp [casadiSub, hla, hlb]
      obtain ⟨rows2, h2, hr2⟩ := ih (fun q hq => hwf q (by simp [hq]))
        (fun q hq => hnx q (by simp [hq]))
        ⟨s.g ++ List.zipWith MXs.sub xa xb, s.gmin ++ List.replicate a.nx 0,
         s.gmax ++ List.replicate a.nx 0⟩
      refine ⟨List.zipWith MXs.sub xa xb ++ rows2, ?_, ?_⟩
      · show interLoop (a :: b :: rest2) s = _
        unfold interLoop
        rw [if_neg (by rw [hxa, hxb]; simp)]
        rw [hgeta]
        dsimp only
        rw [hgetb]
        dsimp only
        rw [hsub]
        dsimp only
        rw [h2]
        have hmul : a.nx + ((b :: rest2).length - 1) * nx0 =
            ((a :: b :: rest2).length - 1) * nx0 := by
          simp only [List.length_cons, Nat.add_sub_cancel, hxa]
          ring
        simp only [List.append_assoc, ← List.replicate_add, hmul]
      · simp only [List.length_append, List.length_zipWith, hla, hlb,
          Nat.min_self, hr2, List.length_cons, Nat.add_sub_cancel]
        ring

lemma cyclicPart_ok (nx0 : Nat) (phases : List PhaseNLP)
    (hwf : ∀ p ∈ phases, PhaseWf p) (hnx : ∀ p ∈ phases, p.nx = nx0)
    (hne : phases ≠ []) (s : OcpState) :
    ∃ rows, cyclicPart phases s =
        .ok ⟨s.g ++ rows, s.gmin ++ List.replicate nx0 0,
             s.gmax ++ List.replicate nx0 0⟩ ∧
      rows.length = nx0 := by
  obtain ⟨p0, hget0, hmem0⟩ := pyGetL_lt (l := phases) (i := 0)
    (by cases phases with | nil => simp at hne | cons a l => simp)
  obtain ⟨pl, hgetl, hmeml⟩ := pyLast_ok hne
  have hw0 : PhaseWf p0 := hwf p0 hmem0
  have hwl : PhaseWf pl := hwf pl hmeml
  have hx0 : p0.nx = nx0 := hnx p0 hmem0
  have hxl : pl.nx = nx0 := hnx pl hmeml
  have hXl : pl.X ≠ [] := by
    intro hcon
    have := hwl.hXlen
    rw [hcon] at this
    simp at this
  obtain ⟨xl, hgetxl, hmemxl⟩ := pyLast_ok hXl
  obtain ⟨x0, hgetx0, hmemx0⟩ := pyGetL_lt (l := p0.X) (i := 0)
    (by rw [hw0.hXlen]; omega)
  have hll : xl.length = nx0 := by rw [hwl.hXrow xl hmemxl, hxl]
  have hl0 : x0.length = nx0 := by rw [hw0.hXrow x0 hmemx0, hx0]
  have hsub : casadiSub xl x0 = .ok (List.zipWith MXs.sub xl x0) := by
    simp [casadiSub, hll, hl0]
  refine ⟨List.zipWith MXs.sub xl x0, ?_, ?_⟩
  · unfold cyclicPart
    rw [hget0]
    dsimp only
    rw [hgetl]
    dsimp only
    rw [if_neg (by rw [hx0, hxl]; simp)]
    rw [hgetxl]
    dsimp only
    rw [hgetx0]
    dsimp only
    rw [hsub]
    dsimp only
    rw [hx0]
  · simp [List.length_zipWith, hll, hl0]

lemma interLoop_lockstep :
    ∀ phases : List PhaseNLP, (∀ p ∈ phases, PhaseWf p) →
    ∀ s : OcpState, lockstep s → (interLoop phases s).lockstep := by
  intro phases
  induction phases with
  | nil => intro _ s hs; exact hs
  | cons a rest ih =>
    cases rest with
    | nil => intro _ s hs; exact hs
    | cons b rest2 =>
      intro hwf s hs
      unfold interLoop
      by_cases hab : a.nx ≠ b.nx
      · rw [if_pos hab]; exact hs
      · rw [if_neg hab]
        cases hgeta : pyLast a.X with
        | error m => exact hs
        | ok xa =>
          dsimp only
          cases hgetb : pyGetL b.X 0 with
          | error m => exact hs
          | ok xb =>
            dsimp only
            cases hsub : casadiSub xa xb with
            | error m => exact hs
            | ok rows =>
              dsimp only
              apply ih (fun q hq => hwf q (by simp [hq]))
              have hr : rows.length = a.nx := by
                rw [(casadiSub_ok_len hsub).1,
                  (hwf a (by simp)).hXrow xa (pyLast_mem hgeta)]
              exact lockstep_append hs hr

lemma cyclicPart_lockstep (phases : List PhaseNLP)
    (hwf : ∀ p ∈ phases, PhaseWf p) (s : OcpState) (hs : lockstep s) :
    (cyclicPart phases s).lockstep := by
  unfold cyclicPart
  cases hget0 : pyGetL phases 0 with
  | error m => exact hs
  | ok p0 =>
    dsimp only
    cases hgetl : pyLast phases with
    | error m => exact hs
    | ok pl =>
      dsimp only
      by_cases hnx : p0.nx ≠ pl.nx
      · rw [if_pos hnx]; exact hs
      · rw [if_neg hnx]
        cases hgetxl : pyLast pl.X with
        | error m => exact hs
        | ok xl =>
          dsimp only
          cases hgetx0 : pyGetL p0.X 0 with
          | error m => exact hs
          | ok x0 =>
            dsimp only
            cases hsub : casadiSub xl x0 with
            | error m => exact hs
            | ok rows =>
              have hpx : p0.nx = pl.nx := not_ne_iff.mp hnx
              have hr : rows.length = p0.nx := by
                rw [(casadiSub_ok_len hsub).1,
                  (hwf pl (pyLast_mem hgetl)).hXrow xl (pyLast_mem hgetxl), hpx]
              exact lockstep_append hs hr

lemma continuity_constraint_lockstep (ocp : OCP) (s : OcpState)
    (hwf : ∀ p ∈ ocp.nlp, PhaseWf p) (hs : lockstep s) :
    (continuity_constraint ocp s).lockstep := by
  have hA : (continuityIntraAll ocp.nlp s).lockstep := by
    unfold continuityIntraAll
    exact foldRes_lockstep_mem ocp.nlp
      (fun p hp s hs => intraLoop_lockstep p (hwf p hp).hdyn p.ns 0 s hs) s hs
  unfold continuity_constraint
  cases hAll : continuityIntraAll ocp.nlp s with
  | err m s1 => rw [hAll] at hA; exact hA
  | ok s1 =>
    rw [hAll] at hA
    dsimp only [Res.andThen]
    have hI : (interLoop ocp.nlp s1).lockstep := interLoop_lockstep ocp.nlp hwf s1 hA
    cases hInt : interLoop ocp.nlp s1 with
    | err m s2 => rw [hInt] at hI; exact hI
    | ok s2 =>
      rw [hInt] at hI
      dsimp only [Res.andThen]
      by_cases hc : ocp.is_cyclic_constraint
      · rw [if_pos hc]; exact cyclicPart_lockstep ocp.nlp hwf s2 hI
      · rw [if_neg hc]; exact hI

lemma applyEntry_lockstep (nlp : PhaseNLP) (elem : ConstraintEntry)
    (s : OcpState) (hs : lockstep s) : (applyEntry nlp elem s).lockstep := by
  unfold applyEntry
  cases selectNodes nlp elem.instant with
  | error m => exact hs
  | ok xu =>
    dsimp only
    cases elem.ctype with
    | markersToPair m1 m2 => exact markers_to_pair_lockstep nlp m1 m2 xu.1 s hs
    | proportionalQ pol => exact proportional_variable_lockstep nlp xu.1 pol s hs
    | proportionalControl pol =>
      dsimp only
      by_cases he : elem.instant = Instant.END
      · rw [if_pos he]; exact hs
      · rw [if_neg he]; exact proportional_variable_lockstep nlp xu.2 pol s hs
    | contactForceGreaterThan d t =>
      dsimp only
      by_cases he : elem.instant = Instant.END
      · rw [if_pos he]; exact hs
      · rw [if_neg he]
        rcases contact_force_inequality_state nlp xu.1 xu.2 s with h | ⟨msg, h⟩
        · rw [h]; exact hs
        · rw [h]; exact hs

lemma add_constraints_lockstep (nlp : PhaseNLP) (s : OcpState)
    (hs : lockstep s) : (add_constraints nlp s).lockstep :=
  foldRes_lockstep (fun e s hs => applyEntry_lockstep nlp e s hs)
    nlp.constraints s hs

lemma sliceV_length (phase off n : Nat) : (sliceV phase off n).length = n := by
  simp [sliceV]

lemma msLoop_X_length (phase nx nu : Nat) :
    ∀ m off, ((msLoop phase nx nu m off).1).length = m + 1 := by
  intro m
  induction m with
  | zero => intro off; simp [msLoop]
  | succ m ih => intro off; simp [msLoop, ih]

lemma msLoop_U_length (phase nx nu : Nat) :
    ∀ m off, ((msLoop phase nx nu m off).2.1).length = m := by
  intro m
  induction m with
  | zero => intro off; simp [msLoop]
  | succ m ih => intro off; simp [msLoop, ih]

lemma msLoop_X_row (phase nx nu : Nat) :
    ∀ m off x, x ∈ (msLoop phase nx nu m off).1 → x.length = nx := by
  intro m
  induction m with
  | zero =>
    intro off x hx
    simp [msLoop] at hx
    rw [hx]
    exact sliceV_length phase off nx
  | succ m ih =>
    intro off x hx
    simp only [msLoop, List.mem_cons] at hx
    rcases hx with hx | hx
    · rw [hx]; exact sliceV_length phase off nx
    · exact ih (off + nx + nu) x hx

lemma msLoop_offset (phase nx nu : Nat) :
    ∀ m off, (msLoop phase nx nu m off).2.2 = off + nV nx nu m := by
  intro m
  induction m with
  | zero => intro off; simp [msLoop, nV]
  | succ m ih =>
    intro off
    show (msLoop phase nx nu m (off + nx + nu)).2.2 = _
    rw [ih]
    simp only [nV]
    ring

lemma mkNlp_wf (ns nx nu : Nat) (cons : List ConstraintEntry) :
    PhaseWf (mkNlp ns nx nu cons) := by
  constructor
  · exact msLoop_X_length 0 nx nu ns 0
  · exact fun x hx => msLoop_X_row 0 nx nu ns 0 x hx
  · exact msLoop_U_length 0 nx nu ns 0
  · intro x u; simp [mkNlp]

lemma phasesVBase_length :
    ∀ (phases : List PhaseNLP) (i : Nat),
    (phasesVBase i phases).length = (phases.map fun p => nV p.nx p.nu p.ns).sum := by
  intro phases
  induction phases with
  | nil => intro i; simp [phasesVBase]
  | cons p rest ih =>
    intro i
    simp [phasesVBase, sliceV_length, ih]

lemma defineVariableTime_length :
    ∀ phases : List PhaseNLP,
    (defineVariableTime phases).length =
      (phases.filter fun p => p.tf.isSym).length := by
  intro phases
  induction phases with
  | nil => simp [defineVariableTime]
  | cons p rest ih =>
    show ((match p.tf with
           | .sym j => [MXs.tsym j]
           | .fixed _ => []) ++ defineVariableTime rest).length = _
    cases htf : p.tf with
    | sym j => simp [List.filter_cons, Duration.isSym, htf, ih]
    | fixed v => simp [List.filter_cons, Duration.isSym, htf, ih]

lemma dimsPrepLoop_error (p0 : PhaseNLP) :
    ∀ phases : List PhaseNLP,
    (∃ p ∈ phases, p0.nx ≠ p.nx ∨ p0.nu ≠ p.nu) →
    ∃ msg, dimsPrepLoop p0 phases = .error msg := by
  intro phases
  induction phases with
  | nil =>
    intro h
    rcases h with ⟨p, hp, _⟩
    simp at hp
  | cons q rest ih =>
    intro h
    unfold dimsPrepLoop
    by_cases hq : p0.nx ≠ q.nx ∨ p0.nu ≠ q.nu
    · rw [if_pos hq]
      exact ⟨_, rfl⟩
    · rw [if_neg hq]
      cases hp : prepare_dynamics q.ode_solver q.tf with
      | error m => exact ⟨m, rfl⟩
      | ok d =>
        dsimp only
        apply ih
        rcases h with ⟨p, hp2, hne⟩
        rcases List.mem_cons.mp hp2 with rfl | hmem
        · exact absurd hne hq
        · exact ⟨p, hmem, hne⟩

lemma ocpTwoPhase_wf : ∀ p ∈ ocpTwoPhase.nlp, PhaseWf p := by
  intro p hp
  rcases List.mem_cons.mp hp with rfl | hp
  · exact mkNlp_wf 2 2 1 []
  · rcases List.mem_cons.mp hp with rfl | hp
    · exact mkNlp_wf 3 2 1 []
    · simp at hp

lemma ocpTwoPhase_nx : ∀ p ∈ ocpTwoPhase.nlp, p.nx = 2 := by
  intro p hp
  rcases List.mem_cons.mp hp with rfl | hp
  · rfl
  · rcases List.mem_cons.mp hp with rfl | hp
    · rfl
    · simp at hp

/-- C1: the global constraint vector and its bound vectors stay in
lockstep: starting from a state with `len(g) == len(g_bounds.min) ==
len(g_bounds.max)`, every constraint-appending operation — the whole
`add_constraints` dispatch (coincidence, proportional, contact-force) and
the whole continuity pass — returns (or raises with) a state that still
satisfies the invariant, because every row is appended together with its
`(min, max)` bound pair. -/
theorem constraint_bounds_stay_lockstep (nlp : PhaseNLP) (ocp : OCP)
    (s : OcpState) (hs : lockstep s) (hwf : ∀ p ∈ ocp.nlp, PhaseWf p) :
    (add_constraints nlp s).lockstep ∧
    (continuity_constraint ocp s).lockstep :=
  ⟨add_constraints_lockstep nlp s hs,
   continuity_constraint_lockstep ocp s hwf hs⟩

/-- Witness for C1 at a concrete program: a phase with a coincidence, a
proportional and a contact-force constraint, and a cyclic two-phase
program for the continuity pass. -/
theorem constraint_bounds_stay_lockstep_witness :
    (lockstep emptyState ∧ ∀ p ∈ ocpTwoPhase.nlp, PhaseWf p) ∧
    ((add_constraints (mkNlp 2 2 1 witnessEntries) emptyState).lockstep ∧
     (continuity_constraint ocpTwoPhase emptyState).lockstep) :=
  ⟨⟨⟨rfl, rfl⟩, ocpTwoPhase_wf⟩,
   constraint_bounds_stay_lockstep (mkNlp 2 2 1 witnessEntries) ocpTwoPhase
     emptyState ⟨rfl, rfl⟩ ocpTwoPhase_wf⟩

/-- C2: the flat decision vector assembled per phase and completed by
`__define_variable_time` has length `sum over phases of
nx*(ns+1) + nu*ns` plus one scalar per phase whose duration is a free
(symbolic) time parameter; moreover the shooting-node offset loop consumes
exactly the declared `nV = nx*(ns+1) + nu*ns` entries of each phase
symbol. -/
theorem decision_vector_length (phases : List PhaseNLP)
    (phase nx nu ns : Nat) :
    (buildV phases).length =
      (phases.map fun p => p.nx * (p.ns + 1) + p.nu * p.ns).sum +
        (phases.filter fun p => p.tf.isSym).length ∧
    (msLoop phase nx nu ns 0).2.2 = nx * (ns + 1) + nu * ns := by
  constructor
  · show (phasesVBase 0 phases ++ defineVariableTime phases).length = _
    rw [List.length_append, phasesVBase_length phases 0,
      defineVariableTime_length phases]
    simp [nV]
  · rw [msLoop_offset phase nx nu ns 0]
    simp [nV]

/-- C4 (divergence witness): the `Instant.MID` branch reads the attribute
`nlp.ns` of the per-phase `dict`, which raises `AttributeError` for every
phase configuration — with `ns = 11` (odd) no node is selected (the claim
expects node 6), and with `ns = 10` (even) the raised error is the
`AttributeError`, not the intended `ValueError`. -/
theorem mid_selector_raises_attribute_error :
    (∀ nlp : PhaseNLP, selectNodes nlp Instant.MID =
      .error "AttributeError: dict object has no attribute ns") ∧
    selectNodes (mkNlp 11 2 1 []) Instant.MID =
      .error "AttributeError: dict object has no attribute ns" ∧
    selectNodes (mkNlp 10 2 1 []) Instant.MID =
      .error "AttributeError: dict object has no attribute ns" :=
  ⟨fun _ => rfl, rfl, rfl⟩

/-- C5 (divergence witness): `Instant.INTERMEDIATES` slices
`X[1 : ns - 1]`, i.e. node indices `1 .. ns-2` — on a phase with `ns = 3`
(nodes 0..3) only node 1 is selected, not nodes 1 and 2 as the claim (and
the Instant docstring) state. -/
theorem intermediates_selector_drops_second_to_last :
    selectNodes (mkNlp 3 1 1 []) Instant.INTERMEDIATES =
      .ok ([[MXs.vsym 0 2]], [[MXs.vsym 0 3]]) ∧
    ([[MXs.vsym 0 2]] : List (List MXs)) ≠
      [[MXs.vsym 0 2], [MXs.vsym 0 4]] ∧
    (∀ nlp : PhaseNLP, selectNodes nlp Instant.INTERMEDIATES =
      .ok ((nlp.X.take (nlp.ns - 1)).drop 1, (nlp.U.take (nlp.ns - 1)).drop 1)) := by
  refine ⟨rfl, by decide, fun nlp => rfl⟩

/-- C7 (divergence witness): the contact-force expansion evaluates the
contact forces and discards them — on a phase with one
`CONTACT_FORCE_GREATER_THAN` constraint at `START` the whole
`add_constraints` pass leaves the constraint vector and both bound vectors
empty, and in general `contact_force_inequality` never changes the
accumulator state. -/
theorem contact_force_inequality_appends_nothing :
    add_constraints
        (mkNlp 2 2 1 [⟨CKind.contactForceGreaterThan 0 5, Instant.START⟩])
        emptyState = .ok emptyState ∧
    (∀ (nlp : PhaseNLP) (X U : List (List MXs)) (s : OcpState),
      contact_force_inequality nlp X U s = .ok s ∨
        ∃ msg, contact_force_inequality nlp X U s = .err msg s) :=
  ⟨by decide, contact_force_inequality_state⟩

/-- C8: a free (symbolic) phase duration makes `__prepare_dynamics` raise
for the collocation and CVODES integrators, while the RK branch builds the
RK4 strategy for any duration without raising. -/
theorem free_duration_rejected_by_collocation_and_cvodes (p : Nat)
    (tf : Duration) :
    prepare_dynamics OdeSolver.COLLOCATION (Duration.sym p) =
      .error "RuntimeError: OdeSolver.COLLOCATION cannot be used while optimizing the time parameter" ∧
    prepare_dynamics OdeSolver.CVODES (Duration.sym p) =
      .error "RuntimeError: OdeSolver.CVODES cannot be used while optimizing the time parameter" ∧
    prepare_dynamics OdeSolver.RK tf = .ok DynStrategy.rk4 :=
  ⟨rfl, rfl, rfl⟩

/-- C10: the per-interval step `dt = tf / max(ns, 1)` has a positive
denominator for every `ns` (so construction never divides by zero, even at
`ns = 0`), and under the invariant `ns ≥ 1` it equals `tf / ns`. -/
theorem dt_denominator_never_zero (tf : ℚ) (ns : Nat) (h : 1 ≤ ns) :
    (∀ m : Nat, 0 < max m 1) ∧ dtOf tf ns = tf / (ns : ℚ) := by
  refine ⟨fun m => by omega, ?_⟩
  unfold dtOf
  rw [Nat.max_eq_left h]

/-- Witness for C10 at `tf = 5`, `ns = 3`. -/
theorem dt_denominator_never_zero_witness :
    (1 ≤ 3) ∧ ((∀ m : Nat, 0 < max m 1) ∧ dtOf 5 3 = 5 / ((3 : ℕ) : ℚ)) :=
  ⟨by decide, dt_denominator_never_zero 5 3 (by decide)⟩

/-- C3: on a program whose phases agree on `nx`, the continuity pass
returns normally and appends, in this order, first `ns*nx` intra-phase
rows per phase (in phase order), then `nx` rows per adjacent phase pair,
then `nx` more rows exactly when cyclic continuity is requested — every
appended bound pair being `(0, 0)`. -/
theorem continuity_row_counts_and_order (ocp : OCP) (s0 : OcpState)
    (nx0 : Nat) (hwf : ∀ p ∈ ocp.nlp, PhaseWf p)
    (hnx : ∀ p ∈ ocp.nlp, p.nx = nx0) (hne : ocp.nlp ≠ []) :
    ∃ intra inter cyc : List MXs,
      intra.length = (ocp.nlp.map fun p => p.ns * p.nx).sum ∧
      inter.length = (ocp.nlp.length - 1) * nx0 ∧
      cyc.length = (if ocp.is_cyclic_constraint then nx0 else 0) ∧
      continuity_constraint ocp s0 =
        .ok ⟨s0.g ++ (intra ++ (inter ++ cyc)),
             s0.gmin ++
               List.replicate (intra.length + (inter.length + cyc.length)) 0,
             s0.gmax ++
               List.replicate (intra.length + (inter.length + cyc.length)) 0⟩ := by
  obtain ⟨intra, h1, hr1⟩ := continuityIntraAll_ok ocp.nlp hwf s0
  obtain ⟨inter, h2, hr2⟩ := interLoop_ok nx0 ocp.nlp hwf hnx
    ⟨s0.g ++ intra,
     s0.gmin ++ List.replicate ((ocp.nlp.map fun p => p.ns * p.nx).sum) 0,
     s0.gmax ++ List.replicate ((ocp.nlp.map fun p => p.ns * p.nx).sum) 0⟩
  by_cases hc : ocp.is_cyclic_constraint
  · obtain ⟨cyc, h3, hr3⟩ := cyclicPart_ok nx0 ocp.nlp hwf hnx hne
      ⟨s0.g ++ intra ++ inter,
       s0.gmin ++ List.replicate ((ocp.nlp.map fun p => p.ns * p.nx).sum) 0 ++
         List.replicate ((ocp.nlp.length - 1) * nx0) 0,
       s0.gmax ++ List.replicate ((ocp.nlp.map fun p => p.ns * p.nx).sum) 0 ++
         List.replicate ((ocp.nlp.length - 1) * nx0) 0⟩
    refine ⟨intra, inter, cyc, hr1, hr2, by rw [if_pos hc]; exact hr3, ?_⟩
    unfold continuity_constraint
    rw [h1]
    dsimp only [Res.andThen]
    rw [h2]
    dsimp only [Res.andThen]
    rw [if_pos hc]
    rw [h3]
    simp only [hr1, hr2, hr3, List.append_assoc, List.replicate_add]
  · refine ⟨intra, inter, [], hr1, hr2, by rw [if_neg hc]; rfl, ?_⟩
    unfold continuity_constraint
    rw [h1]
    dsimp only [Res.andThen]
    rw [h2]
    dsimp only [Res.andThen]
    rw [if_neg hc]
    simp only [hr1, hr2, List.length_nil, List.append_nil, Nat.add_zero,
      List.append_assoc, List.replicate_add]

/-- Witness for C3 at the concrete cyclic two-phase program (phases with
`ns = 2` and `ns = 3`, both `nx = 2`). -/
theorem continuity_row_counts_and_order_witness :
    ((∀ p ∈ ocpTwoPhase.nlp, PhaseWf p) ∧
      (∀ p ∈ ocpTwoPhase.nlp, p.nx = 2) ∧ ocpTwoPhase.nlp ≠ []) ∧
    (∃ intra inter cyc : List MXs,
      intra.length = (ocpTwoPhase.nlp.map fun p => p.ns * p.nx).sum ∧
      inter.length = (ocpTwoPhase.nlp.length - 1) * 2 ∧
      cyc.length = (if ocpTwoPhase.is_cyclic_constraint then 2 else 0) ∧
      continuity_constraint ocpTwoPhase emptyState =
        .ok ⟨emptyState.g ++ (intra ++ (inter ++ cyc)),
             emptyState.gmin ++
               List.replicate (intra.length + (inter.length + cyc.length)) 0,
             emptyState.gmax ++
               List.replicate (intra.length + (inter.length + cyc.length)) 0⟩) :=
  ⟨⟨ocpTwoPhase_wf, ocpTwoPhase_nx, by exact List.cons_ne_nil _ _⟩,
   continuity_row_counts_and_order ocpTwoPhase emptyState 2 ocpTwoPhase_wf
     ocpTwoPhase_nx (by exact List.cons_ne_nil _ _)⟩

/-- C6: a coincidence constraint appends, per selected node, exactly the
3-row difference of the two marker positions evaluated on coordinates
expanded through the dof mapping, with bound pair `(0, 0)` for each row;
through the `all` selector on a phase with `ns = 2` (hence 3 nodes) this
yields exactly `9` rows, each bounded `[0, 0]`. -/
theorem coincidence_rows (nlp : PhaseNLP) (m1 m2 : Nat)
    (X : List (List MXs)) (s : OcpState)
    (hX : nlp.X.length = nlp.ns + 1) (hns : nlp.ns = 2) :
    markers_to_pair nlp X m1 m2 s =
      ⟨s.g ++ X.flatMap (markerRows nlp m1 m2),
       s.gmin ++ List.replicate (3 * X.length) 0,
       s.gmax ++ List.replicate (3 * X.length) 0⟩ ∧
    (∀ x, (markerRows nlp m1 m2 x).length = 3) ∧
    applyEntry nlp ⟨CKind.markersToPair m1 m2, Instant.ALL⟩ s =
      .ok ⟨s.g ++ nlp.X.flatMap (markerRows nlp m1 m2),
           s.gmin ++ List.replicate 9 0, s.gmax ++ List.replicate 9 0⟩ := by
  have h9 : 3 * nlp.X.length = 9 := by rw [hX, hns]
  refine ⟨markers_to_pair_eq nlp m1 m2 X s, markerRows_length nlp m1 m2, ?_⟩
  show Res.ok (markers_to_pair nlp nlp.X m1 m2 s) = _
  rw [markers_to_pair_eq nlp m1 m2 nlp.X s, h9]

/-- Witness for C6 at the concrete phase with `ns = 2`, markers 0 and 1. -/
theorem coincidence_rows_witness :
    ((mkNlp 2 2 1 []).X.length = (mkNlp 2 2 1 []).ns + 1 ∧
      (mkNlp 2 2 1 []).ns = 2) ∧
    (markers_to_pair (mkNlp 2 2 1 []) (mkNlp 2 2 1 []).X 0 1 emptyState =
        ⟨emptyState.g ++
           (mkNlp 2 2 1 []).X.flatMap (markerRows (mkNlp 2 2 1 []) 0 1),
         emptyState.gmin ++
           List.replicate (3 * (mkNlp 2 2 1 []).X.length) 0,
         emptyState.gmax ++
           List.replicate (3 * (mkNlp 2 2 1 []).X.length) 0⟩ ∧
      (∀ x, (markerRows (mkNlp 2 2 1 []) 0 1 x).length = 3) ∧
      applyEntry (mkNlp 2 2 1 [])
          ⟨CKind.markersToPair 0 1, Instant.ALL⟩ emptyState =
        .ok ⟨emptyState.g ++
               (mkNlp 2 2 1 []).X.flatMap (markerRows (mkNlp 2 2 1 []) 0 1),
             emptyState.gmin ++ List.replicate 9 0,
             emptyState.gmax ++ List.replicate 9 0⟩) :=
  ⟨⟨rfl, rfl⟩,
   coincidence_rows (mkNlp 2 2 1 []) 0 1 (mkNlp 2 2 1 []).X emptyState rfl rfl⟩

/-- C9: if two adjacent phases disagree on `nx`, problem construction
fails in the dynamics-definition stage — which runs before `self.g` is
even created — so the raised error leaves the constraint accumulator
empty: no continuity row was emitted. -/
theorem mismatched_nx_fails_before_continuity (ocp : OCP)
    (h : ∃ pre a b post, ocp.nlp = pre ++ a :: b :: post ∧ a.nx ≠ b.nx) :
    ∃ msg, build_ocp_constraints ocp = .err msg emptyState := by
  obtain ⟨pre, a, b, post, hlist, hab⟩ := h
  have hpos : 0 < ocp.nlp.length := by rw [hlist]; simp
  obtain ⟨p0, hget0, hmem0⟩ := pyGetL_lt (l := ocp.nlp) (i := 0) hpos
  have hmema : a ∈ ocp.nlp := by rw [hlist]; simp
  have hmemb : b ∈ ocp.nlp := by rw [hlist]; simp
  have hex : ∃ p ∈ ocp.nlp, p0.nx ≠ p.nx ∨ p0.nu ≠ p.nu := by
    by_cases hpa : p0.nx = a.nx
    · exact ⟨b, hmemb, Or.inl (by rw [hpa]; exact hab)⟩
    · exact ⟨a, hmema, Or.inl hpa⟩
  obtain ⟨msg, hmsg⟩ := dimsPrepLoop_error p0 ocp.nlp hex
  refine ⟨msg, ?_⟩
  unfold build_ocp_constraints prepareAllDynamics
  rw [hget0]
  dsimp only
  rw [hmsg]
  rfl

/-- Witness for C9 at the concrete program whose phases have `nx = 2` and
`nx = 3`. -/
theorem mismatched_nx_fails_before_continuity_witness :
    (∃ pre a b post, ocpMismatch.nlp = pre ++ a :: b :: post ∧ a.nx ≠ b.nx) ∧
    (∃ msg, build_ocp_constraints ocpMismatch = .err msg emptyState) :=
  ⟨⟨[], mkNlp 2 2 1 [], mkNlp 2 3 1 [], [], rfl, by decide⟩,
   mismatched_nx_fails_before_continuity ocpMismatch
     ⟨[], mkNlp 2 2 1 [], mkNlp 2 3 1 [], [], rfl, by decide⟩⟩

end BiorbdOptim
